import Mathlib

/-!
Verification development for the deno-proxy repository (src/main.ts).

The embedding below translates the request-admission and forwarding
pipeline of src/main.ts into Lean: the whitelist pattern compiler
(patternToRegExp), hostname validation (IS_VALID_HOSTNAME), the
sliding-window rate limiter (requestTimestamps), request/response
header sanitization and the per-request decision pipeline.

Modelling conventions:
- JavaScript strings are Lean String values; where character-level
  work is needed we use List Char via String.data.
- JS Headers objects normalize header names to lowercase; headers are
  modelled as association lists whose names are already lowercase,
  and lookup is first-match.
- Date.now() timestamps are Int (milliseconds); JS subtraction on
  them is exact integer arithmetic in the relevant range.
- A JS RegExp built by patternToRegExp is modelled by its match
  semantics: the escaped literal portions match literally and each
  star becomes an anchored sub-match of one or more non-dot
  characters; the i flag is modelled by lowercasing both sides.
-/

set_option autoImplicit false

namespace DenoProxy

/-- Lowercase a character list, modelling the JS case-insensitive comparison. -/
def lowerChars (l : List Char) : List Char := l.map Char.toLower

/-- JS String.prototype.split on a single separator character:
"a,b".split results in the chunks between separators, keeping empty chunks. -/
def splitOnChar (sep : Char) : List Char → List (List Char)
  | [] => [[]]
  | c :: cs =>
    if c = sep then [] :: splitOnChar sep cs
    else
      match splitOnChar sep cs with
      | [] => [[c]]
      | l :: ls => (c :: l) :: ls

/-- Join character-list chunks with a separator (JS Array.prototype.join). -/
def intercalateChar (sep : Char) : List (List Char) → List Char
  | [] => []
  | [l] => l
  | l :: ls => l ++ sep :: intercalateChar sep ls

theorem splitOnChar_ne_nil (sep : Char) (l : List Char) : splitOnChar sep l ≠ [] := by
  induction l with
  | nil => simp [splitOnChar]
  | cons c cs ih =>
    simp only [splitOnChar]
    split
    · simp
    · cases h : splitOnChar sep cs with
      | nil => simp
      | cons a as => simp [h]

theorem mem_splitOnChar_not_mem (sep : Char) (l : List Char) :
    ∀ chunk ∈ splitOnChar sep l, sep ∉ chunk := by
  induction l with
  | nil => simp [splitOnChar]
  | cons c cs ih =>
    intro chunk hc
    simp only [splitOnChar] at hc
    split at hc
    · rcases List.mem_cons.mp hc with h | h
      · simp [h]
      · exact ih chunk h
    · rename_i hne
      cases h : splitOnChar sep cs with
      | nil => exact absurd h (splitOnChar_ne_nil sep cs)
      | cons a as =>
        rw [h] at hc
        rcases List.mem_cons.mp hc with h1 | h1
        · subst h1
          intro hmem
          rcases List.mem_cons.mp hmem with h2 | h2
          · exact hne h2.symm
          · exact ih a (h ▸ List.mem_cons_self a as) h2
        · exact ih chunk (h ▸ List.mem_cons_of_mem a h1)

theorem splitOnChar_no_sep (sep : Char) (l : List Char) (h : sep ∉ l) :
    splitOnChar sep l = [l] := by
  induction l with
  | nil => simp [splitOnChar]
  | cons c cs ih =>
    simp only [splitOnChar]
    have hc : ¬ c = sep := fun he => h (he ▸ List.mem_cons_self c cs)
    rw [if_neg hc, ih (fun hm => h (List.mem_cons_of_mem c hm))]

theorem splitOnChar_append_sep (sep : Char) (l t : List Char) (h : sep ∉ l) :
    splitOnChar sep (l ++ sep :: t) = l :: splitOnChar sep t := by
  induction l with
  | nil => simp [splitOnChar]
  | cons c cs ih =>
    have hc : ¬ c = sep := fun he => h (he ▸ List.mem_cons_self c cs)
    simp only [List.cons_append, splitOnChar, if_neg hc, List.append_eq,
      ih (fun hm => h (List.mem_cons_of_mem c hm))]

theorem splitOnChar_intercalateChar (sep : Char) (ls : List (List Char))
    (hne : ls ≠ []) (hsep : ∀ l ∈ ls, sep ∉ l) :
    splitOnChar sep (intercalateChar sep ls) = ls := by
  induction ls with
  | nil => exact absurd rfl hne
  | cons l ls ih =>
    cases ls with
    | nil =>
      simp only [intercalateChar]
      exact splitOnChar_no_sep sep l (hsep l (List.mem_cons_self l []))
    | cons m ms =>
      simp only [intercalateChar]
      rw [splitOnChar_append_sep sep l (intercalateChar sep (m :: ms))
        (hsep l (List.mem_cons_self l (m :: ms)))]
      rw [ih (by simp) (fun x hx => hsep x (List.mem_cons_of_mem l hx))]

/-- Whitespace characters stripped by JS String.prototype.trim
(the common subset relevant to configuration strings). -/
def isJsWs (c : Char) : Bool :=
  c = ' ' || c = '\t' || c = '\n' || c = '\r' || c = '\x0b' || c = '\x0c'

/-- JS String.prototype.trim on a character list. -/
def jsTrim (l : List Char) : List Char :=
  ((l.dropWhile isJsWs).reverse.dropWhile isJsWs).reverse

-- ===================================================================
-- Headers model (JS Headers with lowercase-normalized names)
-- ===================================================================

/-- A header collection: association list of lowercase names to values. -/
abbrev HeadersModel := List (String × String)

/-- Headers.prototype.get, first match (single-valued headers). -/
def headersGet : HeadersModel → String → Option String
  | [], _ => none
  | (n, v) :: hs, name => if n = name then some v else headersGet hs name

/-- Headers.prototype.delete: removes every entry with the given name. -/
def headersDelete : HeadersModel → String → HeadersModel
  | [], _ => []
  | (n, v) :: hs, name =>
    if n = name then headersDelete hs name else (n, v) :: headersDelete hs name

/-- Headers.prototype.set: removes existing entries and records the new value. -/
def headersSet (hs : HeadersModel) (name v : String) : HeadersModel :=
  headersDelete hs name ++ [(name, v)]

theorem headersGet_append (a b : HeadersModel) (n : String) :
    headersGet (a ++ b) n =
      match headersGet a n with
      | some v => some v
      | none => headersGet b n := by
  induction a with
  | nil => simp [headersGet]
  | cons p a ih =>
    obtain ⟨pn, pv⟩ := p
    simp only [List.cons_append, headersGet]
    split
    · rfl
    · exact ih

theorem headersGet_delete_self (hs : HeadersModel) (d : String) :
    headersGet (headersDelete hs d) d = none := by
  induction hs with
  | nil => simp [headersDelete, headersGet]
  | cons p hs ih =>
    obtain ⟨pn, pv⟩ := p
    simp only [headersDelete]
    by_cases h : pn = d
    · rw [if_pos h]
      exact ih
    · rw [if_neg h]
      simp only [headersGet, if_neg h]
      exact ih

theorem headersGet_delete_ne (hs : HeadersModel) (d n : String) (h : n ≠ d) :
    headersGet (headersDelete hs d) n = headersGet hs n := by
  induction hs with
  | nil => simp [headersDelete]
  | cons p hs ih =>
    obtain ⟨pn, pv⟩ := p
    simp only [headersDelete]
    by_cases hpd : pn = d
    · rw [if_pos hpd]
      rw [ih]
      simp only [headersGet]
      rw [if_neg (fun he : pn = n => h (hpd ▸ he ▸ rfl))]
    · rw [if_neg hpd]
      simp only [headersGet]
      split
      · rfl
      · exact ih

theorem headersGet_set_self (hs : HeadersModel) (n v : String) :
    headersGet (headersSet hs n v) n = some v := by
  simp only [headersSet, headersGet_append, headersGet_delete_self hs n]
  simp [headersGet]

theorem headersGet_set_ne (hs : HeadersModel) (n v m : String) (h : m ≠ n) :
    headersGet (headersSet hs n v) m = headersGet hs m := by
  simp only [headersSet, headersGet_append, headersGet_delete_ne hs n m h]
  cases hg : headersGet hs m with
  | some w => rfl
  | none =>
    simp only [headersGet]
    rw [if_neg (fun he : n = m => h he.symm)]

theorem headersGet_foldl_delete_not_mem (names : List String) (hs : HeadersModel)
    (n : String) (h : n ∉ names) :
    headersGet (names.foldl headersDelete hs) n = headersGet hs n := by
  induction names generalizing hs with
  | nil => rfl
  | cons d names ih =>
    simp only [List.foldl]
    rw [ih (headersDelete hs d) (fun hm => h (List.mem_cons_of_mem d hm))]
    exact headersGet_delete_ne hs d n (fun he => h (he ▸ List.mem_cons_self d names))

theorem headersGet_foldl_delete_mem (names : List String) (hs : HeadersModel)
    (n : String) (h : n ∈ names) :
    headersGet (names.foldl headersDelete hs) n = none := by
  induction names generalizing hs with
  | nil => exact absurd h (List.not_mem_nil n)
  | cons d names ih =>
    simp only [List.foldl]
    by_cases hn : n ∈ names
    · exact ih (headersDelete hs d) hn
    · have hnd : n = d := by
        rcases List.mem_cons.mp h with h1 | h1
        · exact h1
        · exact absurd h1 hn
      subst hnd
      rw [headersGet_foldl_delete_not_mem names (headersDelete hs n) n hn]
      exact headersGet_delete_self hs n

-- ===================================================================
-- Rate limiter (src/main.ts, Layer 1: lines 99-116)
-- ===================================================================

/-- The requestTimestamps map: client identifier to timestamp list. -/
abbrev RateMap := List (String × List Int)

/-- Map.prototype.get with the `|| []` default of the code. -/
def mapGet : RateMap → String → List Int
  | [], _ => []
  | (k, v) :: m, key => if k = key then v else mapGet m key

/-- Map.prototype.set: replace an existing entry or insert a new one. -/
def mapSet : RateMap → String → List Int → RateMap
  | [], key, v => [(key, v)]
  | (k, w) :: m, key, v =>
    if k = key then (key, v) :: m else (k, w) :: mapSet m key v

/-- One rate-limiter call from src/main.ts lines 99-116: read the stored client
timestamps, keep those younger than the window, reject when the count has
reached the maximum (the map write is then skipped), otherwise persist the
pruned list with the new timestamp appended. Returns the admission flag and
the requestTimestamps map after the call. -/
def rateLimitStep (windowMs : Int) (maxRequests : Nat) (m : RateMap)
    (clientIp : String) (now : Int) : Bool × RateMap :=
  let userTimestamps := mapGet m clientIp
  let recentTimestamps := userTimestamps.filter (fun ts => now - ts < windowMs)
  if maxRequests ≤ recentTimestamps.length then
    (false, m)
  else
    (true, mapSet m clientIp (recentTimestamps ++ [now]))

-- ===================================================================
-- Whitelist pattern compiler (src/main.ts, lines 35-46)
-- ===================================================================

/-- Number of star characters in a pattern (the wildcardCount of line 37). -/
def countStars (p : String) : Nat := p.data.countP (fun c => c = '*')

/-- A compiled whitelist pattern: the literal chunks of the pattern between
star wildcards, lowercased to model the case-insensitive regex flag. The
regex built by patternToRegExp escapes every metacharacter in these chunks,
so they match literally. -/
structure CompiledPattern where
  chunks : List (List Char)
deriving DecidableEq

/-- patternToRegExp from src/main.ts lines 35-45: throws when the pattern has
more than 3 wildcards, otherwise compiles to the anchored case-insensitive
matcher in which each star matches one or more non-dot characters. -/
def patternToRegExp (p : String) : Except String CompiledPattern :=
  if 3 < countStars p then
    Except.error ("Pattern \x22" ++ p ++ "\x22 has too many wildcards (max 3)")
  else
    Except.ok ⟨(splitOnChar '*' p.data).map lowerChars⟩

/-- ALLOWED_HOST_PATTERNS.map(patternToRegExp) from line 46: the first
throwing pattern aborts the whole mapping. -/
def compilePatterns : List String → Except String (List CompiledPattern)
  | [] => Except.ok []
  | p :: ps =>
    match patternToRegExp p with
    | Except.error e => Except.error e
    | Except.ok r =>
      match compilePatterns ps with
      | Except.error e => Except.error e
      | Except.ok rs => Except.ok (r :: rs)

/-- Outcome of module start-up: the pattern compilation at line 46 runs
before Deno.serve at line 80, so a throwing pattern prevents the server
from ever serving a request. -/
inductive StartupResult where
  | started : List CompiledPattern → StartupResult
  | configError : String → StartupResult
deriving DecidableEq

/-- Module start-up: compile the configured patterns; a compilation error
is fatal and the server does not start. -/
def startup (ps : List String) : StartupResult :=
  match compilePatterns ps with
  | Except.ok rs => StartupResult.started rs
  | Except.error e => StartupResult.configError e

/-- Backtracking consumption of one wildcard gap: one or more non-dot
characters, after which `next` must accept the remaining input. This is the
match semantics of the sub-regex a star compiles to. -/
def matchGap (next : List Char → Bool) : List Char → Bool
  | [] => false
  | ch :: s => decide (ch ≠ '.') && (next s || matchGap next s)

/-- Anchored match of the compiled chunk sequence against an input: the
chunks must appear literally, in order, separated by non-empty non-dot
gaps (one per star), covering the entire input. This is the match
semantics of the anchored regex built by patternToRegExp. -/
def matchChunks : List (List Char) → List Char → Bool
  | [], _ => false
  | [c], s => decide (s = c)
  | c :: c2 :: cs, s =>
    decide (s.take c.length = c) &&
      matchGap (fun s2 => matchChunks (c2 :: cs) s2) (s.drop c.length)
termination_by structural cs _ => cs

/-- regex.test(targetHost) for one compiled pattern: the i flag is modelled
by lowercasing the hostname (chunks are lowercased at compile time). -/
def hostMatches (cp : CompiledPattern) (host : String) : Bool :=
  matchChunks cp.chunks (lowerChars host.data)

/-- ALLOWED_HOST_REGEXPS.some(regex => regex.test(targetHost)) from
src/main.ts lines 146-148. -/
def isAllowed (regexps : List CompiledPattern) (host : String) : Bool :=
  regexps.any (fun r => hostMatches r host)

/-- Declarative anchored-match relation: a single chunk must equal the whole
input; with more chunks, the input is the first chunk, then a non-empty
dot-free gap (the text matched by one star), then a match of the rest. -/
inductive ChunksMatch : List (List Char) → List Char → Prop where
  | single (c : List Char) : ChunksMatch [c] c
  | cons (c w : List Char) (cs : List (List Char)) (s : List Char) :
      w ≠ [] → (∀ ch ∈ w, ch ≠ '.') → ChunksMatch cs s →
      ChunksMatch (c :: cs) (c ++ w ++ s)

-- ===================================================================
-- Hostname validation (src/main.ts, lines 49-52)
-- ===================================================================

/-- One character of the IS_VALID_HOSTNAME character class: ASCII letters
and digits plus the Unicode range from 0xa1 to 0xffff. -/
def allowedHostChar (c : Char) : Bool :=
  ('a' ≤ c && c ≤ 'z') || ('A' ≤ c && c ≤ 'Z') || ('0' ≤ c && c ≤ '9') ||
    (0xa1 ≤ c.val && c.val ≤ 0xffff)

/-- A character allowed anywhere inside a label: the class above or a hyphen. -/
def isLabelChar (c : Char) : Bool := allowedHostChar c || c = '-'

/-- One DNS label of the IS_VALID_HOSTNAME regex: non-empty, every character
alphanumeric-or-hyphen, and the first and last characters not hyphens. -/
def validLabel (l : List Char) : Bool :=
  match l.head?, l.getLast? with
  | some a, some b => allowedHostChar a && allowedHostChar b && l.all isLabelChar
  | _, _ => false

/-- IS_VALID_HOSTNAME.test from src/main.ts lines 49-52 and 129: the
anchored regex accepts exactly the dot-separated sequences of valid labels
(consecutive dots create an empty, hence invalid, label). -/
def isValid (s : String) : Bool :=
  (splitOnChar '.' s.data).all validLabel

/-- The DNS label grammar of the specification: the string is the
dot-separated concatenation of one or more valid labels. -/
def ValidHostString (s : String) : Prop :=
  ∃ labels : List (List Char), labels ≠ [] ∧
    s.data = intercalateChar '.' labels ∧ ∀ l ∈ labels, validLabel l = true

-- ===================================================================
-- Header sanitization (src/main.ts, Layer 5: lines 167-182 and 213-228)
-- ===================================================================

/-- The fixed hop-by-hop request header list of src/main.ts lines 168-177. -/
def hopByHopHeaders : List String :=
  ["connection", "keep-alive", "proxy-authenticate", "proxy-authorization",
   "te", "trailers", "transfer-encoding", "upgrade"]

/-- Layer 5 of src/main.ts: copy the request headers, delete the hop-by-hop
set and any client-supplied x-forwarded-for, then set x-forwarded-host to
the own host of the proxy and x-forwarded-proto to the inbound scheme. -/
def sanitizeRequestHeaders (reqHeaders : HeadersModel) (urlHost urlScheme : String) :
    HeadersModel :=
  let fwdHeaders := hopByHopHeaders.foldl headersDelete reqHeaders
  let fwdHeaders := headersDelete fwdHeaders "x-forwarded-for"
  let fwdHeaders := headersSet fwdHeaders "x-forwarded-host" urlHost
  headersSet fwdHeaders "x-forwarded-proto" urlScheme

/-- The response header blocklist of src/main.ts lines 214-222: the five
identity and authentication headers plus the two additional security
headers x-frame-options and x-content-type-options. -/
def blockedResponseHeaders : List String :=
  ["set-cookie", "proxy-authenticate", "www-authenticate", "server",
   "x-powered-by", "x-frame-options", "x-content-type-options"]

/-- Response sanitization of src/main.ts lines 213-228: delete the blocked
headers from a copy of the upstream headers and set the x-proxied-by marker. -/
def sanitizeResponseHeaders (upstream : HeadersModel) : HeadersModel :=
  headersSet (blockedResponseHeaders.foldl headersDelete upstream)
    "x-proxied-by" "deno-proxy/2.5"

-- ===================================================================
-- Per-request pipeline (src/main.ts, lines 86-234)
-- ===================================================================

/-- The per-request inputs the pipeline consumes: URL path and query,
request headers, the own URL host and scheme of the proxy, and the client
identifier derived from the remote address. -/
structure ProxyRequest where
  pathname : String
  search : String
  headers : HeadersModel
  host : String
  scheme : String
  clientIp : String

/-- The terminal or forwarding outcome of the validation stages. -/
inductive Decision where
  | rateLimited : Decision
  | emptyPath : Decision
  | invalidHost : String → Decision
  | forbidden : String → Decision
  | forward : String → String → String → HeadersModel → Decision

/-- HTTP status of each terminal decision (a forward takes the upstream
status, hence none). -/
def Decision.status : Decision → Option Nat
  | Decision.rateLimited => some 429
  | Decision.emptyPath => some 400
  | Decision.invalidHost _ => some 400
  | Decision.forbidden _ => some 403
  | Decision.forward _ _ _ _ => none

/-- Layers 2-5 of src/main.ts (lines 119-194) for an admitted request:
split the path into non-empty segments, take the first as the target
host, validate it, test the whitelist, and on success produce the forward
decision carrying the reassembled path (slash-joined remaining segments
with a leading slash, line 194), the preserved query string, and the
sanitized request headers. -/
def handleAdmitted (regexps : List CompiledPattern) (req : ProxyRequest) : Decision :=
  match (splitOnChar '/' req.pathname.data).filter (fun seg => !seg.isEmpty) with
  | [] => Decision.emptyPath
  | targetHost :: rest =>
    let hostStr := String.mk targetHost
    if isValid hostStr then
      if isAllowed regexps hostStr then
        Decision.forward hostStr (String.mk ('/' :: intercalateChar '/' rest))
          req.search (sanitizeRequestHeaders req.headers req.host req.scheme)
      else Decision.forbidden hostStr
    else Decision.invalidHost hostStr

/-- The full request handler: Layer 1 rate limiting first (its map update
happens before any parsing), then the admitted pipeline. Returns the
decision and the requestTimestamps map after the call. -/
def handleRequest (windowMs : Int) (maxRequests : Nat)
    (regexps : List CompiledPattern) (m : RateMap) (req : ProxyRequest)
    (now : Int) : Decision × RateMap :=
  let r := rateLimitStep windowMs maxRequests m req.clientIp now
  if r.1 then (handleAdmitted regexps req, r.2) else (Decision.rateLimited, r.2)

-- ===================================================================
-- Upstream fetch outcome handling (src/main.ts, lines 197-265)
-- ===================================================================

/-- Result of the single upstream fetch: either an upstream response or a
thrown error carrying its name and message (an abort fired by the timeout
controller arrives as an error named AbortError). -/
inductive FetchOutcome where
  | success : Nat → String → String → HeadersModel → FetchOutcome
  | failure : String → String → FetchOutcome

/-- The response the proxy finally sends for a forwarded request. -/
structure FinalResponse where
  status : Nat
  statusText : String
  body : String
  headers : HeadersModel

/-- Lines 212-265 of src/main.ts: on success, pass the upstream status,
status text and body through with sanitized headers; on an AbortError
(the armed timeout fired) answer 504 with a body naming the host and the
configured timeout; on any other error answer 502 with a body naming the
host. Error messages and stack traces go to the structured log only. -/
def handleFetchOutcome (timeoutMs : Int) (targetHost : String) :
    FetchOutcome → FinalResponse
  | FetchOutcome.success st stx body hs =>
    ⟨st, stx, body, sanitizeResponseHeaders hs⟩
  | FetchOutcome.failure name _ =>
    if name = "AbortError" then
      ⟨504, "",
        "Gateway Timeout: Request to \x27" ++ targetHost ++ "\x27 exceeded " ++
          toString timeoutMs ++ "ms.",
        [("content-type", "text/plain; charset=utf-8")]⟩
    else
      ⟨502, "",
        "Bad Gateway: Could not reach target host \x27" ++ targetHost ++ "\x27.",
        [("content-type", "text/plain; charset=utf-8")]⟩

-- ===================================================================
-- Configuration parsing (src/main.ts, lines 8-12)
-- ===================================================================

/-- ALLOWED_HOST_PATTERNS from src/main.ts lines 8-12: split the
ALLOWED_HOSTS variable on commas, trim each piece, and keep the
non-empty ones. -/
def parseAllowedHosts (env : String) : List String :=
  (((splitOnChar ',' env.data).map jsTrim).filter (fun l => !l.isEmpty)).map
    String.mk

-- ===================================================================
-- Matcher soundness and completeness
-- ===================================================================

theorem ChunksMatch_nil_elim (s : List Char) (h : ChunksMatch [] s) : False := by
  cases h

theorem matchGap_sound (next : List Char → Bool) (s : List Char)
    (h : matchGap next s = true) :
    ∃ w s2, s = w ++ s2 ∧ w ≠ [] ∧ (∀ ch ∈ w, ch ≠ '.') ∧ next s2 = true := by
  induction s with
  | nil => simp [matchGap] at h
  | cons ch s ih =>
    simp only [matchGap, Bool.and_eq_true, Bool.or_eq_true, decide_eq_true_eq] at h
    obtain ⟨hdot, hrest⟩ := h
    rcases hrest with hn | hg
    · refine ⟨[ch], s, rfl, by simp, ?_, hn⟩
      intro c hc
      rw [List.mem_singleton.mp hc]
      exact hdot
    · obtain ⟨w, s2, heq, hw, hdots, hnext⟩ := ih hg
      refine ⟨ch :: w, s2, by rw [heq]; rfl, by simp, ?_, hnext⟩
      intro c hc
      rcases List.mem_cons.mp hc with h1 | h1
      · rw [h1]; exact hdot
      · exact hdots c h1

theorem matchGap_complete (next : List Char → Bool) (w s2 : List Char)
    (hw : w ≠ []) (hdots : ∀ ch ∈ w, ch ≠ '.') (hnext : next s2 = true) :
    matchGap next (w ++ s2) = true := by
  induction w with
  | nil => exact absurd rfl hw
  | cons ch w ih =>
    simp only [List.cons_append, matchGap, Bool.and_eq_true, Bool.or_eq_true,
      decide_eq_true_eq]
    refine ⟨hdots ch (List.mem_cons_self ch w), ?_⟩
    cases w with
    | nil =>
      left
      simpa using hnext
    | cons ch2 w2 =>
      right
      exact ih (by simp) (fun c hc => hdots c (List.mem_cons_of_mem ch hc))

theorem matchChunks_sound : ∀ (cs : List (List Char)) (s : List Char),
    matchChunks cs s = true → ChunksMatch cs s := by
  intro cs
  induction cs with
  | nil => intro s h; simp [matchChunks] at h
  | cons c cs ih =>
    intro s h
    cases cs with
    | nil =>
      simp only [matchChunks, decide_eq_true_eq] at h
      rw [h]
      exact ChunksMatch.single c
    | cons c2 cs2 =>
      simp only [matchChunks, Bool.and_eq_true, decide_eq_true_eq] at h
      obtain ⟨hpre, hgap⟩ := h
      obtain ⟨w, s2, heq, hw, hdots, hnext⟩ := matchGap_sound _ _ hgap
      have hs : s = c ++ w ++ s2 := by
        calc s = s.take c.length ++ s.drop c.length :=
              (List.take_append_drop c.length s).symm
        _ = c ++ (w ++ s2) := by rw [hpre, heq]
        _ = c ++ w ++ s2 := (List.append_assoc c w s2).symm
      rw [hs]
      exact ChunksMatch.cons c w (c2 :: cs2) s2 hw hdots (ih s2 hnext)

theorem matchChunks_complete : ∀ (cs : List (List Char)) (s : List Char),
    ChunksMatch cs s → matchChunks cs s = true := by
  intro cs s h
  induction h with
  | single c => simp [matchChunks]
  | cons c w cs s hw hdots hm ih =>
    cases cs with
    | nil => exact absurd hm (ChunksMatch_nil_elim s)
    | cons c2 cs2 =>
      simp only [matchChunks, Bool.and_eq_true, decide_eq_true_eq]
      constructor
      · rw [List.append_assoc, List.take_left]
      · rw [List.append_assoc, List.drop_left]
        exact matchGap_complete _ w s hw hdots ih

-- ===================================================================
-- Claim theorems
-- ===================================================================

/-- C7: for every compiled whitelist pattern and hostname, matching is
anchored and case-insensitive, each star matches exactly one non-empty
dot-free label, and a hostname passes the whitelist stage iff some
compiled pattern matches it: the matcher accepts exactly the hostnames
whose lowercased text decomposes into the literal chunks separated by
non-empty dot-free gaps covering the whole string (ChunksMatch), matching
depends only on the lowercased hostname, and isAllowed is the disjunction
over the compiled patterns. -/
theorem whitelist_match_semantics :
    (∀ (cp : CompiledPattern) (h : String),
      hostMatches cp h = true ↔ ChunksMatch cp.chunks (lowerChars h.data)) ∧
    (∀ (cp : CompiledPattern) (h1 h2 : String),
      lowerChars h1.data = lowerChars h2.data →
      hostMatches cp h1 = hostMatches cp h2) ∧
    (∀ (regexps : List CompiledPattern) (h : String),
      isAllowed regexps h = true ↔ ∃ cp ∈ regexps, hostMatches cp h = true) := by
  refine ⟨fun cp h => ⟨matchChunks_sound _ _, matchChunks_complete _ _⟩, ?_, ?_⟩
  · intro cp h1 h2 he
    simp only [hostMatches, he]
  · intro regexps h
    simp [isAllowed, List.any_eq_true]

/-- Witness for C7 at concrete inputs: pattern star-dot-a matched
case-insensitively against B.a, with the whitelist disjunction. -/
theorem whitelist_match_semantics_witness :
    hostMatches ⟨[[], ['.', 'a']]⟩ "B.a" = hostMatches ⟨[[], ['.', 'a']]⟩ "b.a" ∧
    ChunksMatch [[], ['.', 'a']] (lowerChars "B.a".data) ∧
    isAllowed [⟨[[], ['.', 'a']]⟩] "B.a" = true := by
  refine ⟨whitelist_match_semantics.2.1 ⟨[[], ['.', 'a']]⟩ "B.a" "b.a" (by decide),
    (whitelist_match_semantics.1 ⟨[[], ['.', 'a']]⟩ "B.a").mp (by decide),
    (whitelist_match_semantics.2.2 [⟨[[], ['.', 'a']]⟩] "B.a").mpr
      ⟨⟨[[], ['.', 'a']]⟩, by simp, by decide⟩⟩

theorem compilePatterns_error_of_mem (ps : List String) (p : String)
    (hmem : p ∈ ps) (hstars : 4 ≤ countStars p) :
    ∃ e, compilePatterns ps = Except.error e := by
  induction ps with
  | nil => exact absurd hmem (List.not_mem_nil p)
  | cons q ps ih =>
    simp only [compilePatterns]
    rcases List.mem_cons.mp hmem with h1 | h1
    · subst h1
      rw [patternToRegExp, if_pos (by omega)]
      exact ⟨_, rfl⟩
    · cases hq : patternToRegExp q with
      | error e => exact ⟨e, rfl⟩
      | ok r =>
        obtain ⟨e, he⟩ := ih h1
        rw [he]
        exact ⟨e, rfl⟩

/-- C3: compiling a whitelist pattern succeeds for every pattern with at
most 3 stars; a pattern with 4 or more stars fails to compile with an
error naming the pattern, and when such a pattern is configured, start-up
(which compiles the whole pattern set before serving) ends in a
configuration error instead of a started server. -/
theorem pattern_compile_wildcard_bound :
    (∀ p : String, countStars p ≤ 3 → ∃ cp, patternToRegExp p = Except.ok cp) ∧
    (∀ p : String, 4 ≤ countStars p →
      ∃ a b, patternToRegExp p = Except.error (a ++ p ++ b)) ∧
    (∀ (ps : List String) (p : String), p ∈ ps → 4 ≤ countStars p →
      ∃ e, startup ps = StartupResult.configError e) := by
  refine ⟨?_, ?_, ?_⟩
  · intro p hp
    rw [patternToRegExp, if_neg (by omega)]
    exact ⟨_, rfl⟩
  · intro p hp
    rw [patternToRegExp, if_pos (by omega)]
    exact ⟨"Pattern \x22", "\x22 has too many wildcards (max 3)", rfl⟩
  · intro ps p hmem hstars
    obtain ⟨e, he⟩ := compilePatterns_error_of_mem ps p hmem hstars
    rw [startup, he]
    exact ⟨e, rfl⟩

/-- Witness for C3: a three-star pattern compiles; a four-star pattern
fails with an error naming it and prevents start-up. -/
theorem pattern_compile_wildcard_bound_witness :
    (∃ cp, patternToRegExp "*.*.*.com" = Except.ok cp) ∧
    (∃ a b, patternToRegExp "****" = Except.error (a ++ "****" ++ b)) ∧
    (∃ e, startup ["****"] = StartupResult.configError e) :=
  ⟨pattern_compile_wildcard_bound.1 "*.*.*.com" (by decide),
   pattern_compile_wildcard_bound.2.1 "****" (by decide),
   pattern_compile_wildcard_bound.2.2 ["****"] "****" (by simp) (by decide)⟩

theorem validLabel_no_dot (l : List Char) (h : validLabel l = true) : '.' ∉ l := by
  intro hmem
  unfold validLabel at h
  split at h
  · rename_i a b ha hb
    simp only [Bool.and_eq_true] at h
    have hall := List.all_eq_true.mp h.2 '.' hmem
    simp [isLabelChar, allowedHostChar] at hall
  · exact absurd h (by simp)

/-- C8: isValid accepts every string conforming to the DNS label grammar
(dot-separated non-empty labels over the alphanumeric-plus-hyphen
alphabet, no label starting or ending with a hyphen, no empty labels) and
rejects the three concrete malformed inputs. -/
theorem hostname_validation_spec :
    (∀ s : String, ValidHostString s → isValid s = true) ∧
    isValid "invalid..hostname" = false ∧
    isValid "a/b" = false ∧
    isValid "-leadinghyphen.com" = false := by
  refine ⟨?_, by decide, by decide, by decide⟩
  intro s hv
  obtain ⟨labels, hne, heq, hval⟩ := hv
  rw [isValid, heq,
    splitOnChar_intercalateChar '.' labels hne
      (fun l hl => validLabel_no_dot l (hval l hl))]
  exact List.all_eq_true.mpr hval

/-- Witness for C8: the grammar instance a.com is accepted. -/
theorem hostname_validation_spec_witness : isValid "a.com" = true :=
  hostname_validation_spec.1 "a.com"
    ⟨[['a'], ['c', 'o', 'm']], by simp, by decide, by decide⟩

/-- C1 counterexample: with windowMs 1000 and maxRequests 1, a rejecting
call at time 5000 on stored timestamps 0 and 4500 returns false but leaves
the stored list unchanged, so the entry 0 (older than the window) is still
in stored state, contradicting the claim that the pruned list is
persisted on rejection. -/
theorem rate_reject_not_persisted_cex :
    (rateLimitStep 1000 1 [("c", [0, 4500])] "c" 5000).1 = false ∧
    mapGet (rateLimitStep 1000 1 [("c", [0, 4500])] "c" 5000).2 "c" = [0, 4500] ∧
    (0 : Int) ∈ mapGet (rateLimitStep 1000 1 [("c", [0, 4500])] "c" 5000).2 "c" ∧
    ¬ ((5000 : Int) - 0 < 1000) ∧
    [0, 4500].filter (fun ts => (5000 : Int) - ts < 1000) = [4500] := by
  refine ⟨by decide, by decide, by decide, by decide, by decide⟩

/-- C1 amended: when a rate-limiter call rejects (the pruned timestamp
list has length at least maxRequests), it returns false and the
per-client map is left entirely unchanged — the pruned list is computed
for the admission check but not persisted, and the new timestamp is not
appended. -/
theorem rate_reject_leaves_map_unchanged (windowMs : Int) (maxRequests : Nat)
    (m : RateMap) (clientIp : String) (now : Int)
    (h : maxRequests ≤
      ((mapGet m clientIp).filter (fun ts => now - ts < windowMs)).length) :
    rateLimitStep windowMs maxRequests m clientIp now = (false, m) := by
  rw [rateLimitStep]
  simp only [if_pos h]

/-- Witness for C1 amended at the concrete rejecting call. -/
theorem rate_reject_leaves_map_unchanged_witness :
    rateLimitStep 1000 1 [("d", [0, 4500])] "d" 5000 = (false, [("d", [0, 4500])]) :=
  rate_reject_leaves_map_unchanged 1000 1 [("d", [0, 4500])] "d" 5000 (by decide)

/-- C2 counterexample: the upstream header x-frame-options is outside the
five headers the claim lists and is not the x-proxied-by marker, yet
response sanitization removes it, so not every other upstream header is
left unchanged. -/
theorem response_blocklist_extra_header_cex :
    headersGet (sanitizeResponseHeaders [("x-frame-options", "DENY")])
      "x-frame-options" = none ∧
    "x-frame-options" ∉
      ["set-cookie", "proxy-authenticate", "www-authenticate", "server",
       "x-powered-by"] ∧
    "x-frame-options" ≠ "x-proxied-by" := by
  refine ⟨by decide, by decide, by decide⟩

/-- C2 amended: response sanitization removes exactly the seven headers of
the blocklist in src/main.ts (set-cookie, proxy-authenticate,
www-authenticate, server, x-powered-by, x-frame-options,
x-content-type-options), sets the x-proxied-by marker, and leaves every
other upstream header unchanged. -/
theorem response_blocklist_spec :
    ∀ (hs : HeadersModel),
      (∀ n ∈ blockedResponseHeaders,
        headersGet (sanitizeResponseHeaders hs) n = none) ∧
      headersGet (sanitizeResponseHeaders hs) "x-proxied-by" =
        some "deno-proxy/2.5" ∧
      (∀ n, n ∉ blockedResponseHeaders → n ≠ "x-proxied-by" →
        headersGet (sanitizeResponseHeaders hs) n = headersGet hs n) := by
  intro hs
  have hmark : ∀ n ∈ blockedResponseHeaders, n ≠ "x-proxied-by" := by decide
  refine ⟨?_, ?_, ?_⟩
  · intro n hn
    rw [sanitizeResponseHeaders, headersGet_set_ne _ _ _ _ (hmark n hn),
      headersGet_foldl_delete_mem _ _ _ hn]
  · rw [sanitizeResponseHeaders, headersGet_set_self]
  · intro n hn hmarker
    rw [sanitizeResponseHeaders, headersGet_set_ne _ _ _ _ hmarker,
      headersGet_foldl_delete_not_mem _ _ _ hn]

/-- Witness for C2 amended at a concrete upstream header collection. -/
theorem response_blocklist_spec_witness :
    headersGet (sanitizeResponseHeaders
      [("server", "nginx"), ("content-type", "application/json")]) "server" =
      none ∧
    headersGet (sanitizeResponseHeaders
      [("server", "nginx"), ("content-type", "application/json")])
      "x-proxied-by" = some "deno-proxy/2.5" ∧
    headersGet (sanitizeResponseHeaders
      [("server", "nginx"), ("content-type", "application/json")])
      "content-type" =
      headersGet [("server", "nginx"), ("content-type", "application/json")]
        "content-type" :=
  ⟨(response_blocklist_spec
      [("server", "nginx"), ("content-type", "application/json")]).1
      "server" (by decide),
   (response_blocklist_spec
      [("server", "nginx"), ("content-type", "application/json")]).2.1,
   (response_blocklist_spec
      [("server", "nginx"), ("content-type", "application/json")]).2.2
      "content-type" (by decide) (by decide)⟩

/-- C6: for every admitted request, the forwarded header set contains none
of the hop-by-hop headers and no client-supplied x-forwarded-for,
x-forwarded-host is the own host of the proxy and x-forwarded-proto the
inbound scheme, and every other header (authorization included) is
forwarded unchanged. -/
theorem request_sanitization_spec :
    ∀ (hs : HeadersModel) (host scheme : String),
      (∀ n ∈ hopByHopHeaders,
        headersGet (sanitizeRequestHeaders hs host scheme) n = none) ∧
      headersGet (sanitizeRequestHeaders hs host scheme) "x-forwarded-for" =
        none ∧
      headersGet (sanitizeRequestHeaders hs host scheme) "x-forwarded-host" =
        some host ∧
      headersGet (sanitizeRequestHeaders hs host scheme) "x-forwarded-proto" =
        some scheme ∧
      (∀ n, n ∉ hopByHopHeaders → n ≠ "x-forwarded-for" →
        n ≠ "x-forwarded-host" → n ≠ "x-forwarded-proto" →
        headersGet (sanitizeRequestHeaders hs host scheme) n = headersGet hs n) := by
  intro hs host scheme
  have hdist : ∀ n ∈ hopByHopHeaders,
      n ≠ "x-forwarded-for" ∧ n ≠ "x-forwarded-host" ∧ n ≠ "x-forwarded-proto" := by
    decide
  refine ⟨?_, ?_, ?_, ?_, ?_⟩
  · intro n hn
    obtain ⟨h1, h2, h3⟩ := hdist n hn
    rw [sanitizeRequestHeaders, headersGet_set_ne _ _ _ _ h3,
      headersGet_set_ne _ _ _ _ h2, headersGet_delete_ne _ _ _ h1,
      headersGet_foldl_delete_mem _ _ _ hn]
  · rw [sanitizeRequestHeaders, headersGet_set_ne _ _ _ _ (by decide),
      headersGet_set_ne _ _ _ _ (by decide), headersGet_delete_self]
  · rw [sanitizeRequestHeaders, headersGet_set_ne _ _ _ _ (by decide),
      headersGet_set_self]
  · rw [sanitizeRequestHeaders, headersGet_set_self]
  · intro n hn h1 h2 h3
    rw [sanitizeRequestHeaders, headersGet_set_ne _ _ _ _ h3,
      headersGet_set_ne _ _ _ _ h2, headersGet_delete_ne _ _ _ h1,
      headersGet_foldl_delete_not_mem _ _ _ hn]

/-- Witness for C6 at a concrete request header collection. -/
theorem request_sanitization_spec_witness :
    headersGet (sanitizeRequestHeaders
      [("authorization", "Bearer k"), ("connection", "close"),
       ("x-forwarded-for", "1.2.3.4")] "proxy.example" "http") "connection" =
      none ∧
    headersGet (sanitizeRequestHeaders
      [("authorization", "Bearer k"), ("connection", "close"),
       ("x-forwarded-for", "1.2.3.4")] "proxy.example" "http")
      "x-forwarded-for" = none ∧
    headersGet (sanitizeRequestHeaders
      [("authorization", "Bearer k"), ("connection", "close"),
       ("x-forwarded-for", "1.2.3.4")] "proxy.example" "http")
      "x-forwarded-host" = some "proxy.example" ∧
    headersGet (sanitizeRequestHeaders
      [("authorization", "Bearer k"), ("connection", "close"),
       ("x-forwarded-for", "1.2.3.4")] "proxy.example" "http")
      "x-forwarded-proto" = some "http" ∧
    headersGet (sanitizeRequestHeaders
      [("authorization", "Bearer k"), ("connection", "close"),
       ("x-forwarded-for", "1.2.3.4")] "proxy.example" "http")
      "authorization" =
      headersGet
        [("authorization", "Bearer k"), ("connection", "close"),
         ("x-forwarded-for", "1.2.3.4")] "authorization" :=
  ⟨(request_sanitization_spec
      [("authorization", "Bearer k"), ("connection", "close"),
       ("x-forwarded-for", "1.2.3.4")] "proxy.example" "http").1
      "connection" (by decide),
   (request_sanitization_spec _ "proxy.example" "http").2.1,
   (request_sanitization_spec _ "proxy.example" "http").2.2.1,
   (request_sanitization_spec _ "proxy.example" "http").2.2.2.1,
   (request_sanitization_spec
      [("authorization", "Bearer k"), ("connection", "close"),
       ("x-forwarded-for", "1.2.3.4")] "proxy.example" "http").2.2.2.2
      "authorization" (by decide) (by decide) (by decide) (by decide)⟩

/-- C9: an upstream call aborted by the timeout yields a terminal 504
whose body names the target host and the configured timeout value; any
other upstream failure yields a terminal 502 whose body names the target
host; the handler consumes the single fetch outcome (no retry), and the
502 body is independent of the underlying error message, which goes to
the log only. -/
theorem upstream_failure_responses :
    ∀ (timeoutMs : Int) (targetHost msg : String),
      ((handleFetchOutcome timeoutMs targetHost
          (FetchOutcome.failure "AbortError" msg)).status = 504 ∧
        (∃ a b, (handleFetchOutcome timeoutMs targetHost
          (FetchOutcome.failure "AbortError" msg)).body = a ++ targetHost ++ b) ∧
        (∃ a b, (handleFetchOutcome timeoutMs targetHost
          (FetchOutcome.failure "AbortError" msg)).body =
            a ++ toString timeoutMs ++ b)) ∧
      (∀ name, name ≠ "AbortError" →
        (handleFetchOutcome timeoutMs targetHost
          (FetchOutcome.failure name msg)).status = 502 ∧
        (∃ a b, (handleFetchOutcome timeoutMs targetHost
          (FetchOutcome.failure name msg)).body = a ++ targetHost ++ b) ∧
        (∀ msg2, handleFetchOutcome timeoutMs targetHost
            (FetchOutcome.failure name msg) =
          handleFetchOutcome timeoutMs targetHost
            (FetchOutcome.failure name msg2))) := by
  intro timeoutMs targetHost msg
  constructor
  · refine ⟨by simp [handleFetchOutcome],
      ⟨"Gateway Timeout: Request to \x27",
        "\x27 exceeded " ++ toString timeoutMs ++ "ms.", ?_⟩,
      ⟨"Gateway Timeout: Request to \x27" ++ targetHost ++ "\x27 exceeded ",
        "ms.", ?_⟩⟩
    · simp [handleFetchOutcome, String.append_assoc]
    · simp [handleFetchOutcome, String.append_assoc]
  · intro name hname
    refine ⟨?_, ⟨"Bad Gateway: Could not reach target host \x27", "\x27.", ?_⟩,
      fun msg2 => ?_⟩
    · simp [handleFetchOutcome, if_neg hname]
    · simp [handleFetchOutcome, if_neg hname, String.append_assoc]
    · simp [handleFetchOutcome]

/-- Witness for C9 at a concrete timeout, host and non-abort error name. -/
theorem upstream_failure_responses_witness :
    (handleFetchOutcome 600000 "api.openai.com"
      (FetchOutcome.failure "AbortError" "aborted")).status = 504 ∧
    (handleFetchOutcome 600000 "api.openai.com"
      (FetchOutcome.failure "TypeError" "dns failure")).status = 502 :=
  ⟨((upstream_failure_responses 600000 "api.openai.com" "aborted").1).1,
   ((upstream_failure_responses 600000 "api.openai.com" "dns failure").2
      "TypeError" (by decide)).1⟩

/-- C10: with an empty compiled whitelist (as produced by a blank
ALLOWED_HOSTS), the pipeline never produces a forward decision, and an
admitted request whose first path segment is a syntactically valid
hostname ends at the whitelist stage with the 403 forbidden decision:
the proxy fails closed. -/
theorem empty_whitelist_fails_closed :
    parseAllowedHosts "" = [] ∧
    parseAllowedHosts "  " = [] ∧
    (∀ (windowMs : Int) (maxRequests : Nat) (m : RateMap) (req : ProxyRequest)
        (now : Int) (host path query : String) (fwd : HeadersModel),
      (handleRequest windowMs maxRequests [] m req now).1 ≠
        Decision.forward host path query fwd) ∧
    (∀ (windowMs : Int) (maxRequests : Nat) (m : RateMap) (req : ProxyRequest)
        (now : Int) (hseg : List Char) (rest : List (List Char)),
      (rateLimitStep windowMs maxRequests m req.clientIp now).1 = true →
      (splitOnChar '/' req.pathname.data).filter (fun seg => !seg.isEmpty) =
        hseg :: rest →
      isValid (String.mk hseg) = true →
      (handleRequest windowMs maxRequests [] m req now).1 =
        Decision.forbidden (String.mk hseg) ∧
      Decision.status (Decision.forbidden (String.mk hseg)) = some 403) := by
  refine ⟨by decide, by decide, ?_, ?_⟩
  · intro windowMs maxRequests m req now host path query fwd
    rw [handleRequest]
    cases hr : (rateLimitStep windowMs maxRequests m req.clientIp now).1 with
    | false => simp
    | true =>
      simp only [if_pos rfl]
      rw [handleAdmitted]
      cases hsplit : (splitOnChar '/' req.pathname.data).filter
          (fun seg => !seg.isEmpty) with
      | nil => simp
      | cons hseg rest =>
        cases hiv : isValid (String.mk hseg) with
        | false => simp [hiv]
        | true => simp [hiv, show isAllowed [] (String.mk hseg) = false from rfl]
  · intro windowMs maxRequests m req now hseg rest hadm hsplit hvalid
    refine ⟨?_, rfl⟩
    rw [handleRequest]
    simp only [hadm, if_pos rfl]
    rw [handleAdmitted, hsplit]
    simp only [hvalid, if_pos rfl]
    rw [show isAllowed [] (String.mk hseg) = false from rfl]
    simp

/-- Witness for C10: a concrete admitted request for a.com against the
empty whitelist is forbidden with status 403. -/
theorem empty_whitelist_fails_closed_witness :
    (handleRequest 1000 3 [] []
        ⟨"/a.com/x", "", [], "proxy.example", "http", "client"⟩ 0).1 =
      Decision.forbidden (String.mk "a.com".data) ∧
    Decision.status (Decision.forbidden (String.mk "a.com".data)) = some 403 :=
  empty_whitelist_fails_closed.2.2.2 1000 3 []
    ⟨"/a.com/x", "", [], "proxy.example", "http", "client"⟩ 0
    "a.com".data [['x']] (by decide) (by decide) (by decide)

/-- C4: when the request path splits (dropping empty segments) into a host
segment followed by remaining segments and the request is admitted past
validation and whitelist, the forwarded decision carries exactly the path
made of a leading slash plus the remaining segments joined with slashes,
with the query string preserved verbatim; splitting the forwarded path
again recovers the remaining segments exactly and in order. -/
theorem forward_path_reassembly :
    ∀ (regexps : List CompiledPattern) (req : ProxyRequest) (hseg : List Char)
      (rest : List (List Char)),
      (splitOnChar '/' req.pathname.data).filter (fun seg => !seg.isEmpty) =
        hseg :: rest →
      isValid (String.mk hseg) = true →
      isAllowed regexps (String.mk hseg) = true →
      handleAdmitted regexps req =
        Decision.forward (String.mk hseg)
          (String.mk ('/' :: intercalateChar '/' rest)) req.search
          (sanitizeRequestHeaders req.headers req.host req.scheme) ∧
      (splitOnChar '/' ('/' :: intercalateChar '/' rest)).filter
        (fun seg => !seg.isEmpty) = rest := by
  intro regexps req hseg rest hsplit hvalid hallow
  have hmem : ∀ x ∈ rest, x ∈ splitOnChar '/' req.pathname.data ∧ x ≠ [] := by
    intro x hx
    have hx2 : x ∈ (splitOnChar '/' req.pathname.data).filter
        (fun seg => !seg.isEmpty) := by
      rw [hsplit]
      exact List.mem_cons_of_mem hseg hx
    have := List.mem_filter.mp hx2
    refine ⟨this.1, ?_⟩
    have := this.2
    simpa [List.isEmpty_iff] using this
  constructor
  · rw [handleAdmitted, hsplit]
    simp [hvalid, hallow]
  · have hslash : splitOnChar '/' ('/' :: intercalateChar '/' rest) =
        [] :: splitOnChar '/' (intercalateChar '/' rest) := by
      simp [splitOnChar]
    rw [hslash]
    cases hr : rest with
    | nil => simp [intercalateChar, splitOnChar]
    | cons r rs =>
      rw [← hr]
      have hnr : rest ≠ [] := by rw [hr]; simp
      rw [splitOnChar_intercalateChar '/' rest hnr
        (fun l hl => mem_splitOnChar_not_mem '/' req.pathname.data l
          (hmem l hl).1)]
      simp only [List.filter]
      rw [List.filter_eq_self.mpr ?_]
      · simp
      · intro a ha
        simp only [Bool.not_eq_true']
        rw [← Bool.not_eq_true]
        intro hempty
        exact (hmem a ha).2 (List.isEmpty_iff.mp (by simpa using hempty))

/-- Witness for C4: the request path /host/a/b/c with query q=1 forwards
to exactly /a/b/c with the query preserved. -/
theorem forward_path_reassembly_witness :
    handleAdmitted [⟨["host".data]⟩]
        ⟨"/host/a/b/c", "?q=1", [], "proxy.example", "https", "client"⟩ =
      Decision.forward (String.mk "host".data)
        (String.mk ('/' :: intercalateChar '/' [['a'], ['b'], ['c']])) "?q=1"
        (sanitizeRequestHeaders [] "proxy.example" "https") ∧
    (splitOnChar '/' ('/' :: intercalateChar '/' [['a'], ['b'], ['c']])).filter
      (fun seg => !seg.isEmpty) = [['a'], ['b'], ['c']] :=
  forward_path_reassembly [⟨["host".data]⟩]
    ⟨"/host/a/b/c", "?q=1", [], "proxy.example", "https", "client"⟩
    "host".data [['a'], ['b'], ['c']] (by decide) (by decide) (by decide)

/-- C5: with maxRequests 3 and windowMs 1000, three requests from one
client whose timestamps lie inside one window are all admitted, a fourth
inside the same window is rejected (and the handler answers with the
rate-limited decision, status 429), and a later request at least windowMs
after every stored timestamp is admitted again. -/
theorem rate_limit_scenario (c : String) (t1 t2 t3 t4 t5 : Int)
    (h12 : t1 ≤ t2) (h23 : t2 ≤ t3) (h34 : t3 ≤ t4)
    (hwin : t4 - t1 < 1000) (hafter : t3 + 1000 ≤ t5) :
    rateLimitStep 1000 3 [] c t1 = (true, [(c, [t1])]) ∧
    rateLimitStep 1000 3 [(c, [t1])] c t2 = (true, [(c, [t1, t2])]) ∧
    rateLimitStep 1000 3 [(c, [t1, t2])] c t3 = (true, [(c, [t1, t2, t3])]) ∧
    rateLimitStep 1000 3 [(c, [t1, t2, t3])] c t4 =
      (false, [(c, [t1, t2, t3])]) ∧
    (∀ (regexps : List CompiledPattern) (req : ProxyRequest),
      req.clientIp = c →
      (handleRequest 1000 3 regexps [(c, [t1, t2, t3])] req t4).1 =
        Decision.rateLimited ∧
      Decision.status
        (handleRequest 1000 3 regexps [(c, [t1, t2, t3])] req t4).1 =
        some 429) ∧
    rateLimitStep 1000 3 [(c, [t1, t2, t3])] c t5 = (true, [(c, [t5])]) := by
  have f21 : t2 - t1 < 1000 := by omega
  have f31 : t3 - t1 < 1000 := by omega
  have f32 : t3 - t2 < 1000 := by omega
  have f41 : t4 - t1 < 1000 := hwin
  have f42 : t4 - t2 < 1000 := by omega
  have f43 : t4 - t3 < 1000 := by omega
  have g1 : ¬ (t5 - t1 < 1000) := by omega
  have g2 : ¬ (t5 - t2 < 1000) := by omega
  have g3 : ¬ (t5 - t3 < 1000) := by omega
  have e4 : rateLimitStep 1000 3 [(c, [t1, t2, t3])] c t4 =
      (false, [(c, [t1, t2, t3])]) := by
    simp [rateLimitStep, mapGet, f41, f42, f43]
  refine ⟨by simp [rateLimitStep, mapGet, mapSet],
    by simp [rateLimitStep, mapGet, mapSet, f21],
    by simp [rateLimitStep, mapGet, mapSet, f31, f32],
    e4, ?_, by simp [rateLimitStep, mapGet, mapSet, g1, g2, g3]⟩
  intro regexps req hc
  rw [handleRequest, hc, e4]
  exact ⟨by simp, by simp [Decision.status]⟩

/-- Witness for C5: the concrete timestamps 0, 1, 2, 3 and 1002. -/
theorem rate_limit_scenario_witness :
    rateLimitStep 1000 3 [] "c" 0 = (true, [("c", [0])]) ∧
    rateLimitStep 1000 3 [("c", [0])] "c" 1 = (true, [("c", [0, 1])]) ∧
    rateLimitStep 1000 3 [("c", [0, 1])] "c" 2 = (true, [("c", [0, 1, 2])]) ∧
    rateLimitStep 1000 3 [("c", [0, 1, 2])] "c" 3 =
      (false, [("c", [0, 1, 2])]) ∧
    (handleRequest 1000 3 [] [("c", [0, 1, 2])]
        ⟨"/a.com/x", "", [], "proxy.example", "http", "c"⟩ 3).1 =
      Decision.rateLimited ∧
    rateLimitStep 1000 3 [("c", [0, 1, 2])] "c" 1002 = (true, [("c", [1002])]) := by
  have h := rate_limit_scenario "c" 0 1 2 3 1002 (by decide) (by decide)
    (by decide) (by decide) (by decide)
  exact ⟨h.1, h.2.1, h.2.2.1, h.2.2.2.1,
    (h.2.2.2.2.1 [] ⟨"/a.com/x", "", [], "proxy.example", "http", "c"⟩ rfl).1,
    h.2.2.2.2.2⟩

end DenoProxy
